import Mathlib

/-!
Verification of the per-site private-allele pipeline of `FPA.cpp`.

The program reads one line per site; each line carries, for each population,
the fields `allele1 allele2 coverage Nc best_p best_q error_rate best_H
poly_llstat`.  The per-site computation (FPA.cpp, `main`, lines 136-229) is a
pure function of these fields and the two configuration thresholds `min_Nc`
and `cv`.  We embed that computation shallowly: C++ `double`s become `ℚ`
(every comparison and arithmetic operation the pipeline performs on them is
exact field arithmetic, so `ℚ` is faithful), strings stay strings with the
sentinel `"NA"`, and the two transcendental operations `pow` and `log10`
(used only once, in the detection-probability formula) are abstracted as
function parameters `powf` and `log10f`, so every definition stays
computable while the shape of the computed expression is preserved exactly.
-/

set_option allowUnsafeReducibility true in
attribute [semireducible] Rat.mul Rat.inv Rat.add Rat.sub

namespace FPA

/-- Configuration thresholds: `-min_Nc` (default 20.0) and `-cv`
(default 5.991) from the command line. -/
structure Config where
  min_Nc : ℚ
  cv : ℚ
deriving DecidableEq

/-- Per-population fields of one site line, after numeric parsing: `n1`/`n2`
are the allele strings (sentinel `"NA"`), `cov` the coverage, and `Nc`,
`best_p`, `best_q`, `pol_llstat` the `atof` values of the corresponding
tokens.  The `error_rate` and `best_H` tokens are consumed by the parser but
never used, so they are not modelled. -/
structure Pop where
  n1 : String
  n2 : String
  cov : Int
  Nc : ℚ
  best_p : ℚ
  best_q : ℚ
  pol_llstat : ℚ
deriving DecidableEq

/-- Total coverage of the site: sum of `pop_cov` over all populations,
unconditionally (FPA.cpp line 145). -/
def tot_cov (pops : List Pop) : Int :=
  (pops.map Pop.cov).sum

/-- Qualification test applied to a population in both loops of the site
computation: `n1[pg] != "NA"` and `Nc[pg] >= min_Nc` (FPA.cpp lines 148-150
and 190). -/
def qualifies (cfg : Config) (p : Pop) : Prop :=
  p.n1 ≠ "NA" ∧ cfg.min_Nc ≤ p.Nc

instance (cfg : Config) (p : Pop) : Decidable (qualifies cfg p) := by
  unfold qualifies; infer_instance

/-- Number of qualifying populations at the site (`ne_pops`, incremented at
FPA.cpp line 151). -/
def ne_pops (cfg : Config) (pops : List Pop) : Nat :=
  pops.countP (fun p => decide (qualifies cfg p))

/-- Sum of `Nc` over qualifying populations (`sum_Nc`, FPA.cpp line 152). -/
def sum_Nc (cfg : Config) (pops : List Pop) : ℚ :=
  ((pops.filter (fun p => decide (qualifies cfg p))).map Pop.Nc).sum

/-- Deduplicating append used for the segregating-allele vector: the C++
code pushes `x` only when `find` fails (FPA.cpp lines 153-156, 160-163). -/
def pushNew (l : List String) (x : String) : List String :=
  if x ∈ l then l else l ++ [x]

/-- Per-population step of the first loop's allele collection: a qualifying
population inserts its `n1`, then inserts `n2` as well when `n2 != "NA"` and
`pol_llstat > cv` (FPA.cpp lines 148-167). -/
def allelesStep (cfg : Config) (acc : List String) (p : Pop) : List String :=
  if qualifies cfg p then
    let acc1 := pushNew acc p.n1
    if p.n2 ≠ "NA" ∧ cfg.cv < p.pol_llstat then pushNew acc1 p.n2 else acc1
  else acc

/-- Segregating-allele list of the site, in first-seen order (`alleles`,
built by the loop at FPA.cpp lines 143-168). -/
def alleles (cfg : Config) (pops : List Pop) : List String :=
  pops.foldl (allelesStep cfg) []

/-- Number of segregating alleles (`num_alleles`, FPA.cpp line 170). -/
def num_alleles (cfg : Config) (pops : List Pop) : Nat :=
  (alleles cfg pops).length

/-- State of the per-allele aggregation loop: the parallel vectors
`id_pop_a` and `freq_a` and the accumulator `sum_freq_a`
(FPA.cpp lines 185-201). -/
structure AlleleAgg where
  id_pop_a : List Nat
  freq_a : List ℚ
  sum_freq_a : ℚ
deriving DecidableEq

/-- Body of the aggregation loop for one population `pg` (FPA.cpp lines
190-200): a qualifying population whose `n1` equals the allele records
`(pg, best_p)`; otherwise, if its `n2` equals the allele it records
`(pg, best_q)` — with no `pol_llstat` condition in this loop. -/
def aggStep (cfg : Config) (a : String) (st : AlleleAgg) (ip : Nat × Pop) : AlleleAgg :=
  if qualifies cfg ip.2 then
    if ip.2.n1 = a then
      ⟨st.id_pop_a ++ [ip.1], st.freq_a ++ [ip.2.best_p], st.sum_freq_a + ip.2.best_p⟩
    else if ip.2.n2 = a then
      ⟨st.id_pop_a ++ [ip.1], st.freq_a ++ [ip.2.best_q], st.sum_freq_a + ip.2.best_q⟩
    else st
  else st

/-- Populations paired with their 1-based ids (`pg` runs from 1 to
`num_pops` in FPA.cpp). -/
def enumPops : Nat → List Pop → List (Nat × Pop)
  | _, [] => []
  | n, p :: ps => (n, p) :: enumPops (n + 1) ps

/-- Aggregation of one allele over the populations: the result of the loop
at FPA.cpp lines 185-201 started from cleared vectors and `sum_freq_a = 0`. -/
def agg (cfg : Config) (pops : List Pop) (a : String) : AlleleAgg :=
  (enumPops 1 pops).foldl (aggStep cfg a) ⟨[], [], 0⟩

/-- Number of populations carrying the allele (`num_pops_a`,
FPA.cpp line 202). -/
def num_pops_a (cfg : Config) (pops : List Pop) (a : String) : Nat :=
  (agg cfg pops a).id_pop_a.length

/-- Mean frequency of the allele: `sum_freq_a / ne_pops`
(FPA.cpp line 203).  The denominator is the qualifying-population count. -/
def mean_freq_a (cfg : Config) (pops : List Pop) (a : String) : ℚ :=
  (agg cfg pops a).sum_freq_a / (ne_pops cfg pops : ℚ)

/-- Running-minimum update of `maf_total` over the remaining alleles: the
stored value is replaced only on a strict decrease (FPA.cpp lines 204-210). -/
def mafFold (cfg : Config) (pops : List Pop) : ℚ → List String → ℚ
  | m, [] => m
  | m, a :: rest =>
      mafFold cfg pops
        (if mean_freq_a cfg pops a < m then mean_freq_a cfg pops a else m) rest

/-- Minor allele frequency of the site: minimum of `mean_freq_a` over the
segregating alleles, initialised by the first allele (`ag == 0`,
FPA.cpp lines 204-210); `none` when the allele loop does not run. -/
def maf_total (cfg : Config) (pops : List Pop) : Option ℚ :=
  match alleles cfg pops with
  | [] => none
  | a :: rest => some (mafFold cfg pops (mean_freq_a cfg pops a) rest)

/-- The `Nc` value of the population with 1-based id `i` (the array access
`Nc[id_pop_a.at(0)]` at FPA.cpp line 216). -/
def NcAt (pops : List Pop) (i : Nat) : ℚ :=
  ((pops.get? (i - 1)).map Pop.Nc).getD 0

/-- One private-allele output row: the fields pushed at FPA.cpp lines
212-219 (`private_allele`, `id_pop_pa`, `focal_paf`, `total_paf`,
`log_prob_pa`). -/
structure PARow where
  allele : String
  id_pop : Nat
  focal_paf : ℚ
  total_paf : ℚ
  log_prob_pa : ℚ
deriving DecidableEq

/-- Private-allele test and row construction for one allele (FPA.cpp lines
211-220): a row is produced exactly when `ne_pops >= 2 && num_pops_a == 1`,
and then `Nc_focal = Nc[id_pop_a.at(0)]`, `Nc_other = sum_Nc - Nc_focal`,
`t_prob_pa = (1-pow(1-mean_freq_a,Nc_focal))*pow(1-mean_freq_a,Nc_other)`,
and the emitted field is `log10(t_prob_pa)`; `powf` and `log10f` abstract
the C library `pow` and `log10`. -/
def mkRow (powf : ℚ → ℚ → ℚ) (log10f : ℚ → ℚ) (cfg : Config) (pops : List Pop)
    (a : String) : Option PARow :=
  let st := agg cfg pops a
  let m := st.sum_freq_a / (ne_pops cfg pops : ℚ)
  if 2 ≤ ne_pops cfg pops ∧ st.id_pop_a.length = 1 then
    let Ncf := NcAt pops st.id_pop_a.headI
    let Nco := sum_Nc cfg pops - Ncf
    some ⟨a, st.id_pop_a.headI, st.freq_a.headI, m,
      log10f ((1 - powf (1 - m) Ncf) * powf (1 - m) Nco)⟩
  else none

/-- All private-allele rows of the site, in allele first-seen order: the
allele loop at FPA.cpp lines 184-221 pushes one row per allele passing the
private test. -/
def privateRows (powf : ℚ → ℚ → ℚ) (log10f : ℚ → ℚ) (cfg : Config)
    (pops : List Pop) : List PARow :=
  (alleles cfg pops).filterMap (mkRow powf log10f cfg pops)

/-- Clean one-population view of the aggregation loop body: the frequency
the population contributes to allele `a`, when it contributes one
(FPA.cpp lines 190-199). -/
def popCarry (cfg : Config) (a : String) (p : Pop) : Option ℚ :=
  if qualifies cfg p then
    if p.n1 = a then some p.best_p
    else if p.n2 = a then some p.best_q
    else none
  else none

/-- Clean view of the ids recorded by the aggregation loop: the 1-based
indices (starting from `n`) of the populations contributing to allele `a`. -/
def carrierIds (cfg : Config) (a : String) : Nat → List Pop → List Nat
  | _, [] => []
  | n, p :: ps =>
      if (popCarry cfg a p).isSome then n :: carrierIds cfg a (n + 1) ps
      else carrierIds cfg a (n + 1) ps

/-! Concrete inputs used to instantiate the theorems. -/

/-- Trivial stand-in for the C library `pow`, used to instantiate the
abstract parameter in concrete evaluations. -/
def pow0 : ℚ → ℚ → ℚ := fun _ _ => 0

/-- Trivial stand-in for the C library `log10`, used to instantiate the
abstract parameter in concrete evaluations. -/
def log0 : ℚ → ℚ := fun _ => 0

/-- Default thresholds: `min_Nc = 20.0`, `cv = 5.991`. -/
def cfgB : Config := ⟨20, 5991 / 1000⟩

/-- Population with `allele1 = "A"`, `Nc = 25`, `best_p = 0.9`,
`allele2 = "NA"` (population 1 of the spec's Scenario B). -/
def popA : Pop := ⟨"A", "NA", 0, 25, 9 / 10, 0, 0⟩

/-- Population with `allele1 = "T"`, `Nc = 22`, `best_p = 0.8`,
`allele2 = "NA"` (population 2 of the spec's Scenario B). -/
def popT : Pop := ⟨"T", "NA", 0, 22, 4 / 5, 0, 0⟩

/-- The two-population site of the spec's Scenario B. -/
def popsB : List Pop := [popA, popT]

/-- Population with missing `allele1` (`"NA"`), used to exercise the
threshold gating. -/
def popNA : Pop := ⟨"NA", "NA", 7, 0, 0, 0, 0⟩

/-- Qualifying population whose `allele2 = "A"` was NOT admitted by the
significance gate (`pol_llstat = 0 ≤ cv`), while its `allele1 = "T"`. -/
def cexP2 : Pop := ⟨"T", "A", 0, 25, 3 / 5, 2 / 5, 0⟩

/-- Two-population site where allele `"A"` segregates via population 1 and
population 2 matches it only through a non-significant `allele2`. -/
def cexPops : List Pop := [popA, cexP2]

/-- Qualifying population with a significant second allele
(`pol_llstat = 7 > cv`). -/
def popCG : Pop := ⟨"C", "G", 0, 25, 1 / 2, 1 / 2, 7⟩

/-- Qualifying population whose `allele1` and `allele2` are both `"A"`. -/
def popAA : Pop := ⟨"A", "A", 0, 25, 7 / 10, 3 / 10, 8⟩

/-- The private-allele row for `"A"` emitted on the Scenario B site when
`pow` and `log10` are instantiated by `pow0` and `log0`. -/
def rowA : PARow := ⟨"A", 1, 9 / 10, 9 / 20, 0⟩

/-! Bridging lemmas: the fold-based `agg` coincides with the clean
`popCarry`/`carrierIds` view of the aggregation loop. -/

theorem agg_foldl (cfg : Config) (a : String) (pops : List Pop) :
    ∀ (n : Nat) (st : AlleleAgg),
    (enumPops n pops).foldl (aggStep cfg a) st =
      ⟨st.id_pop_a ++ carrierIds cfg a n pops,
       st.freq_a ++ pops.filterMap (popCarry cfg a),
       st.sum_freq_a + (pops.filterMap (popCarry cfg a)).sum⟩ := by
  induction pops with
  | nil => intro n st; simp [enumPops, carrierIds]
  | cons p ps ih =>
    intro n st
    show List.foldl _ (aggStep cfg a st (n, p)) (enumPops (n + 1) ps) = _
    rw [ih]
    by_cases hq : qualifies cfg p
    · by_cases h1 : p.n1 = a
      · simp [aggStep, popCarry, carrierIds, hq, h1, List.filterMap_cons, add_assoc]
      · by_cases h2 : p.n2 = a
        · simp [aggStep, popCarry, carrierIds, hq, h1, h2, List.filterMap_cons, add_assoc]
        · simp [aggStep, popCarry, carrierIds, hq, h1, h2, List.filterMap_cons]
    · simp [aggStep, popCarry, carrierIds, hq, List.filterMap_cons]

theorem agg_eq (cfg : Config) (pops : List Pop) (a : String) :
    agg cfg pops a =
      ⟨carrierIds cfg a 1 pops, pops.filterMap (popCarry cfg a),
       (pops.filterMap (popCarry cfg a)).sum⟩ := by
  have h := agg_foldl cfg a pops 1 ⟨[], [], 0⟩
  simpa [agg] using h

theorem carrierIds_length (cfg : Config) (a : String) (pops : List Pop) :
    ∀ n, (carrierIds cfg a n pops).length = (pops.filterMap (popCarry cfg a)).length := by
  induction pops with
  | nil => intro n; simp [carrierIds]
  | cons p ps ih =>
    intro n
    by_cases h : (popCarry cfg a p).isSome
    · obtain ⟨q, hq⟩ := Option.isSome_iff_exists.mp h
      simp [carrierIds, h, List.filterMap_cons, hq, ih]
    · rw [Option.not_isSome_iff_eq_none] at h
      simp [carrierIds, h, List.filterMap_cons, ih]

theorem num_pops_a_eq (cfg : Config) (pops : List Pop) (a : String) :
    num_pops_a cfg pops a = (pops.filterMap (popCarry cfg a)).length := by
  rw [num_pops_a, agg_eq]
  exact carrierIds_length cfg a pops 1

theorem agg_sum_eq_freq_sum (cfg : Config) (pops : List Pop) (a : String) :
    (agg cfg pops a).sum_freq_a = (agg cfg pops a).freq_a.sum := by
  rw [agg_eq]

/-- Negation of the qualification test, in the thresholds' own terms. -/
theorem not_qualifies_iff (cfg : Config) (p : Pop) :
    ¬ qualifies cfg p ↔ (p.n1 = "NA" ∨ p.Nc < cfg.min_Nc) := by
  rw [qualifies, not_and_or]
  constructor
  · rintro (h | h)
    · exact Or.inl (not_not.mp h)
    · exact Or.inr (lt_of_not_le h)
  · rintro (h | h)
    · exact Or.inl (not_not.mpr h)
    · exact Or.inr (not_le_of_lt h)

theorem popCarry_none_of_not_qualifies (cfg : Config) (p : Pop)
    (h : ¬ qualifies cfg p) : popCarry cfg a p = none := by
  simp [popCarry, h]

theorem allelesStep_not_qualifies (cfg : Config) (acc : List String) (p : Pop)
    (h : ¬ qualifies cfg p) : allelesStep cfg acc p = acc := by
  simp [allelesStep, h]

theorem mkRow_eq_some (pf : ℚ → ℚ → ℚ) (lf : ℚ → ℚ) (cfg : Config) (pops : List Pop)
    (a : String) (r : PARow) (h : mkRow pf lf cfg pops a = some r) :
    r = ⟨a, (agg cfg pops a).id_pop_a.headI, (agg cfg pops a).freq_a.headI,
          mean_freq_a cfg pops a,
          lf ((1 - pf (1 - mean_freq_a cfg pops a)
                  (NcAt pops (agg cfg pops a).id_pop_a.headI))
            * pf (1 - mean_freq_a cfg pops a)
                (sum_Nc cfg pops - NcAt pops (agg cfg pops a).id_pop_a.headI))⟩
      ∧ 2 ≤ ne_pops cfg pops ∧ num_pops_a cfg pops a = 1 := by
  simp only [mkRow] at h
  split_ifs at h with hc
  exact ⟨(Option.some.inj h).symm, hc.1, hc.2⟩

theorem mkRow_isSome_iff (pf : ℚ → ℚ → ℚ) (lf : ℚ → ℚ) (cfg : Config) (pops : List Pop)
    (a : String) :
    (mkRow pf lf cfg pops a).isSome ↔ (2 ≤ ne_pops cfg pops ∧ num_pops_a cfg pops a = 1) := by
  simp only [mkRow]
  split_ifs with hc
  · exact iff_of_true (by simp) hc
  · exact iff_of_false (by simp) hc

/-- C1: for every site, a segregating allele produces a private-allele output
row if and only if exactly one qualifying population carries it
(`num_pops_a == 1`) and the site has at least two qualifying populations
(`ne_pops >= 2`); in particular, at a site with `ne_pops == 1` no row is
produced even when an allele has exactly one carrier. -/
theorem private_row_iff (pf : ℚ → ℚ → ℚ) (lf : ℚ → ℚ) (cfg : Config) (pops : List Pop)
    (a : String) (ha : a ∈ alleles cfg pops) :
    (∃ r ∈ privateRows pf lf cfg pops, r.allele = a) ↔
      (num_pops_a cfg pops a = 1 ∧ 2 ≤ ne_pops cfg pops) := by
  constructor
  · rintro ⟨r, hr, rfl⟩
    obtain ⟨a', ha', hsome⟩ := List.mem_filterMap.mp hr
    obtain ⟨hrow, h2, h1⟩ := mkRow_eq_some pf lf cfg pops a' r hsome
    have hall : r.allele = a' := by rw [hrow]
    rw [hall]
    exact ⟨h1, h2⟩
  · rintro ⟨h1, h2⟩
    have hs : (mkRow pf lf cfg pops a).isSome :=
      (mkRow_isSome_iff pf lf cfg pops a).mpr ⟨h2, h1⟩
    obtain ⟨r, hr⟩ := Option.isSome_iff_exists.mp hs
    refine ⟨r, List.mem_filterMap.mpr ⟨a, ha, hr⟩, ?_⟩
    obtain ⟨hrow, -, -⟩ := mkRow_eq_some pf lf cfg pops a r hr
    rw [hrow]

/-- C3: every emitted private-allele row carries, in its log-probability
field, exactly `log10((1-(1-p)^Nc_focal) * (1-p)^Nc_other)` where `p` is the
allele's mean frequency, `Nc_focal` the carrying population's `Nc`, and
`Nc_other = sum_Nc - Nc_focal` (`pow` and `log10` abstracted as `pf`, `lf`). -/
theorem log_prob_formula (pf : ℚ → ℚ → ℚ) (lf : ℚ → ℚ) (cfg : Config) (pops : List Pop)
    (r : PARow) (hr : r ∈ privateRows pf lf cfg pops) :
    r.log_prob_pa =
      lf ((1 - pf (1 - mean_freq_a cfg pops r.allele) (NcAt pops r.id_pop))
        * pf (1 - mean_freq_a cfg pops r.allele)
            (sum_Nc cfg pops - NcAt pops r.id_pop)) := by
  obtain ⟨a, ha, hsome⟩ := List.mem_filterMap.mp hr
  obtain ⟨hrow, -, -⟩ := mkRow_eq_some pf lf cfg pops a r hsome
  rw [hrow]

/-- C10: in the aggregation loop, a qualifying population whose `allele1`
and `allele2` both equal the examined allele is recorded exactly once, with
its `freq1` (`best_p`): the `allele1` branch takes precedence and `freq2`
is not added. -/
theorem n1_precedence (cfg : Config) (a : String) (st : AlleleAgg) (pg : Nat) (p : Pop)
    (hq : qualifies cfg p) (h1 : p.n1 = a) (h2 : p.n2 = a) :
    aggStep cfg a st (pg, p) =
      ⟨st.id_pop_a ++ [pg], st.freq_a ++ [p.best_p], st.sum_freq_a + p.best_p⟩ := by
  simp [aggStep, hq, h1]

/-- C2 (amended): in the aggregation loop, a qualifying population whose
`allele2` equals the examined allele (and whose `allele1` does not) is
recorded with its `freq2` (`best_q`) unconditionally — the loop at
FPA.cpp lines 189-201 imposes no `poly_llstat > cv` condition; the
significance gate applies only to admission into the segregating set. -/
theorem freq2_recorded_unconditionally (cfg : Config) (a : String) (st : AlleleAgg)
    (pg : Nat) (p : Pop) (hq : qualifies cfg p) (h1 : p.n1 ≠ a) (h2 : p.n2 = a) :
    aggStep cfg a st (pg, p) =
      ⟨st.id_pop_a ++ [pg], st.freq_a ++ [p.best_q], st.sum_freq_a + p.best_q⟩ := by
  simp [aggStep, hq, h1, h2]

/-- C4: a population with missing `allele1` or `Nc` below `min_Nc` still
adds its coverage to `total_coverage`, but changes neither `ne_pops`, nor
the segregating-allele list, nor any allele's recorded frequency sum,
carrier count, or mean frequency. -/
theorem threshold_gating (cfg : Config) (pre post : List Pop) (p : Pop) (a : String)
    (h : p.n1 = "NA" ∨ p.Nc < cfg.min_Nc) :
    tot_cov (pre ++ p :: post) = tot_cov (pre ++ post) + p.cov
    ∧ ne_pops cfg (pre ++ p :: post) = ne_pops cfg (pre ++ post)
    ∧ alleles cfg (pre ++ p :: post) = alleles cfg (pre ++ post)
    ∧ (agg cfg (pre ++ p :: post) a).sum_freq_a = (agg cfg (pre ++ post) a).sum_freq_a
    ∧ num_pops_a cfg (pre ++ p :: post) a = num_pops_a cfg (pre ++ post) a
    ∧ mean_freq_a cfg (pre ++ p :: post) a = mean_freq_a cfg (pre ++ post) a := by
  have hnq : ¬ qualifies cfg p := (not_qualifies_iff cfg p).mpr h
  have hfm : (pre ++ p :: post).filterMap (popCarry cfg a)
      = (pre ++ post).filterMap (popCarry cfg a) := by
    simp [List.filterMap_append, List.filterMap_cons,
      popCarry_none_of_not_qualifies cfg p hnq]
  have hne : ne_pops cfg (pre ++ p :: post) = ne_pops cfg (pre ++ post) := by
    simp [ne_pops, List.countP_append, List.countP_cons, decide_eq_false hnq]
  have hsum : (agg cfg (pre ++ p :: post) a).sum_freq_a
      = (agg cfg (pre ++ post) a).sum_freq_a := by
    rw [agg_eq, agg_eq, hfm]
  refine ⟨?_, hne, ?_, hsum, ?_, ?_⟩
  · simp [tot_cov]
    ring
  · rw [alleles, alleles, List.foldl_append, List.foldl_append, List.foldl_cons,
      allelesStep_not_qualifies cfg _ p hnq]
  · rw [num_pops_a_eq, num_pops_a_eq, hfm]
  · rw [mean_freq_a, mean_freq_a, hsum, hne]

/-- C5: in the allele-collection step for a qualifying population with
non-missing `allele2` whose `allele2` is not already present, `allele2`
ends up in the set if and only if `poly_llstat > cv` strictly; at
`poly_llstat == cv` it is not added. -/
theorem allele2_gate (cfg : Config) (acc : List String) (p : Pop)
    (hq : qualifies cfg p) (hna : p.n2 ≠ "NA") (hnew : p.n2 ∉ pushNew acc p.n1) :
    (p.n2 ∈ allelesStep cfg acc p ↔ cfg.cv < p.pol_llstat) := by
  rw [allelesStep, if_pos hq]
  by_cases hcv : cfg.cv < p.pol_llstat
  · rw [if_pos ⟨hna, hcv⟩, pushNew, if_neg hnew]
    simp [hcv]
  · rw [if_neg (fun hc => hcv hc.2)]
    simp [hnew, hcv]

/-- C9: whenever the per-allele loop (and with it the division
`mean_freq_a = sum_freq_a / ne_pops`) runs — that is, whenever some allele
is in the segregating set — at least one population qualifies, so
`ne_pops ≥ 1` and the division is never by zero. -/
theorem division_guard (cfg : Config) (pops : List Pop) (a : String)
    (ha : a ∈ alleles cfg pops) : 1 ≤ ne_pops cfg pops := by
  by_contra hlt
  have h0 : ne_pops cfg pops = 0 := Nat.lt_one_iff.mp (Nat.not_le.mp hlt)
  have hall : ∀ p ∈ pops, ¬ qualifies cfg p := by
    intro p hp hq
    have hz := List.countP_eq_zero.mp h0 p hp
    simp [hq] at hz
  have hnil : alleles cfg pops = [] := by
    rw [alleles]
    have : ∀ (l : List Pop), (∀ p ∈ l, ¬ qualifies cfg p) →
        ∀ acc, l.foldl (allelesStep cfg) acc = acc := by
      intro l
      induction l with
      | nil => intro _ acc; rfl
      | cons q qs ih =>
        intro hl acc
        rw [List.foldl_cons, allelesStep_not_qualifies cfg acc q (hl q (List.mem_cons_self _ _)),
          ih (fun r hr => hl r (List.mem_cons_of_mem q hr)) acc]
    exact this pops hall []
  rw [hnil] at ha
  exact List.not_mem_nil a ha

/-- C6: for every allele the mean frequency divides the sum of the recorded
frequencies by `ne_pops`, the total qualifying-population count; it is NOT
the sum divided by `num_pops_a`, the number of carrying populations, as the
Scenario B site witnesses concretely (0.45 versus 0.9 for allele "A"). -/
theorem mean_denominator :
    (∀ (cfg : Config) (pops : List Pop) (a : String),
        mean_freq_a cfg pops a = (agg cfg pops a).freq_a.sum / (ne_pops cfg pops : ℚ))
    ∧ mean_freq_a cfgB popsB "A"
        ≠ (agg cfgB popsB "A").freq_a.sum / (num_pops_a cfgB popsB "A" : ℚ) := by
  constructor
  · intro cfg pops a
    rw [mean_freq_a, agg_sum_eq_freq_sum]
  · decide

theorem mafFold_le_init (cfg : Config) (pops : List Pop) :
    ∀ (l : List String) (m : ℚ), mafFold cfg pops m l ≤ m := by
  intro l
  induction l with
  | nil => intro m; exact le_refl m
  | cons a rest ih =>
    intro m
    rw [mafFold]
    refine le_trans (ih _) ?_
    split_ifs with hlt
    · exact le_of_lt hlt
    · exact le_refl m

theorem mafFold_le_mem (cfg : Config) (pops : List Pop) :
    ∀ (l : List String) (m : ℚ) (a : String), a ∈ l →
      mafFold cfg pops m l ≤ mean_freq_a cfg pops a := by
  intro l
  induction l with
  | nil => intro m a ha; exact absurd ha (List.not_mem_nil a)
  | cons b rest ih =>
    intro m a ha
    rw [mafFold]
    rcases List.mem_cons.mp ha with rfl | hmem
    · refine le_trans (mafFold_le_init cfg pops rest _) ?_
      split_ifs with hlt
      · exact le_refl _
      · exact le_of_not_lt hlt
    · exact ih _ a hmem

theorem mafFold_mem_or (cfg : Config) (pops : List Pop) :
    ∀ (l : List String) (m : ℚ), mafFold cfg pops m l = m
      ∨ mafFold cfg pops m l ∈ l.map (mean_freq_a cfg pops) := by
  intro l
  induction l with
  | nil => intro m; exact Or.inl rfl
  | cons a rest ih =>
    intro m
    rw [mafFold]
    split_ifs with hlt
    · rcases ih (mean_freq_a cfg pops a) with he | hm
      · exact Or.inr (by rw [he]; exact List.mem_map_of_mem _ (List.mem_cons_self _ _))
      · exact Or.inr (List.mem_cons_of_mem _ hm)
    · rcases ih m with he | hm
      · exact Or.inl he
      · exact Or.inr (List.mem_cons_of_mem _ hm)

/-- C7: when the site has at least one segregating allele, `maf_total` is
the minimum of `mean_freq_a` over the segregating alleles (it is one of the
mean frequencies and a lower bound of all of them), and with a single
segregating allele it equals that allele's mean frequency. -/
theorem maf_is_min (cfg : Config) (pops : List Pop) (h : alleles cfg pops ≠ []) :
    ∃ m, maf_total cfg pops = some m
      ∧ m ∈ (alleles cfg pops).map (mean_freq_a cfg pops)
      ∧ (∀ x ∈ (alleles cfg pops).map (mean_freq_a cfg pops), m ≤ x)
      ∧ (∀ a, alleles cfg pops = [a] → m = mean_freq_a cfg pops a) := by
  obtain ⟨a, rest, hal⟩ := List.exists_cons_of_ne_nil h
  refine ⟨mafFold cfg pops (mean_freq_a cfg pops a) rest, ?_, ?_, ?_, ?_⟩
  · rw [maf_total, hal]
  · rw [hal]
    rcases mafFold_mem_or cfg pops rest (mean_freq_a cfg pops a) with he | hm
    · rw [he]
      exact List.mem_map_of_mem _ (List.mem_cons_self _ _)
    · exact List.mem_cons_of_mem _ hm
  · intro x hx
    rw [hal] at hx
    rcases List.mem_map.mp hx with ⟨b, hb, rfl⟩
    rcases List.mem_cons.mp hb with rfl | hmem
    · exact mafFold_le_init cfg pops rest _
    · exact mafFold_le_mem cfg pops rest _ b hmem
  · intro b hb
    rw [hal] at hb
    obtain ⟨rfl, hrest⟩ : a = b ∧ rest = [] := by
      constructor <;> [exact (List.cons.inj hb).1; exact (List.cons.inj hb).2]
    rw [hrest]
    rfl

/-- C8: on the Scenario B site (two qualifying populations, `allele1` "A"
with frequency 0.9 and `allele1` "T" with frequency 0.8, both `allele2`
missing, `min_Nc = 20`), the program emits exactly two private-allele rows:
("A", population 1, focal 0.9, total 0.45) and ("T", population 2, focal
0.8, total 0.4), and `maf_total = 0.4`. -/
theorem scenario_b (pf : ℚ → ℚ → ℚ) (lf : ℚ → ℚ) :
    (privateRows pf lf cfgB popsB).map
        (fun r => (r.allele, r.id_pop, r.focal_paf, r.total_paf))
      = [("A", 1, 9 / 10, 9 / 20), ("T", 2, 4 / 5, 2 / 5)]
    ∧ maf_total cfgB popsB = some (2 / 5) := by
  constructor
  · rfl
  · rfl

/-- C2 (counterexample): on the `cexPops` site, population 2 qualifies, its
`allele2` equals the segregating allele "A", and its `poly_llstat` is NOT
greater than `cv`; yet the aggregation records population 2 as a carrier of
"A" and adds its `freq2 = 0.4` — the claim that such a population
contributes neither membership nor `freq2` fails on this input. -/
theorem gate_not_applied_in_agg_cex :
    cexP2.n2 = "A" ∧ "A" ∈ alleles cfgB cexPops ∧ qualifies cfgB cexP2
    ∧ cexP2.pol_llstat ≤ cfgB.cv
    ∧ (agg cfgB cexPops "A").id_pop_a = [1, 2]
    ∧ (agg cfgB cexPops "A").freq_a = [9 / 10, 2 / 5]
    ∧ (agg cfgB cexPops "A").sum_freq_a = 9 / 10 + 2 / 5 := by
  decide

/-! Witnesses instantiating the theorems with hypotheses at concrete
inputs. -/

theorem private_row_iff_witness :
    ("A" ∈ alleles cfgB popsB)
    ∧ ((∃ r ∈ privateRows pow0 log0 cfgB popsB, r.allele = "A") ↔
        (num_pops_a cfgB popsB "A" = 1 ∧ 2 ≤ ne_pops cfgB popsB)) :=
  ⟨by decide, private_row_iff pow0 log0 cfgB popsB "A" (by decide)⟩

theorem log_prob_formula_witness :
    (rowA ∈ privateRows pow0 log0 cfgB popsB)
    ∧ rowA.log_prob_pa =
        log0 ((1 - pow0 (1 - mean_freq_a cfgB popsB rowA.allele) (NcAt popsB rowA.id_pop))
          * pow0 (1 - mean_freq_a cfgB popsB rowA.allele)
              (sum_Nc cfgB popsB - NcAt popsB rowA.id_pop)) :=
  ⟨by decide, log_prob_formula pow0 log0 cfgB popsB rowA (by decide)⟩

theorem n1_precedence_witness :
    (qualifies cfgB popAA ∧ popAA.n1 = "A" ∧ popAA.n2 = "A")
    ∧ aggStep cfgB "A" ⟨[], [], 0⟩ (1, popAA) = ⟨[1], [7 / 10], 7 / 10⟩ :=
  ⟨⟨by decide, rfl, rfl⟩,
    by rw [n1_precedence cfgB "A" ⟨[], [], 0⟩ 1 popAA (by decide) rfl rfl]; decide⟩

theorem freq2_recorded_unconditionally_witness :
    (qualifies cfgB cexP2 ∧ cexP2.n1 ≠ "A" ∧ cexP2.n2 = "A")
    ∧ aggStep cfgB "A" ⟨[], [], 0⟩ (2, cexP2) = ⟨[2], [2 / 5], 2 / 5⟩ :=
  ⟨⟨by decide, by decide, rfl⟩,
    by rw [freq2_recorded_unconditionally cfgB "A" ⟨[], [], 0⟩ 2 cexP2 (by decide)
        (by decide) rfl]; decide⟩

theorem threshold_gating_witness :
    (popNA.n1 = "NA" ∨ popNA.Nc < cfgB.min_Nc)
    ∧ (tot_cov [popA, popNA, popT] = tot_cov popsB + popNA.cov
      ∧ ne_pops cfgB [popA, popNA, popT] = ne_pops cfgB popsB
      ∧ alleles cfgB [popA, popNA, popT] = alleles cfgB popsB
      ∧ (agg cfgB [popA, popNA, popT] "A").sum_freq_a = (agg cfgB popsB "A").sum_freq_a
      ∧ num_pops_a cfgB [popA, popNA, popT] "A" = num_pops_a cfgB popsB "A"
      ∧ mean_freq_a cfgB [popA, popNA, popT] "A" = mean_freq_a cfgB popsB "A") :=
  ⟨Or.inl rfl, threshold_gating cfgB [popA] [popT] popNA "A" (Or.inl rfl)⟩

theorem allele2_gate_witness :
    (qualifies cfgB popCG ∧ popCG.n2 ≠ "NA" ∧ popCG.n2 ∉ pushNew [] popCG.n1)
    ∧ (popCG.n2 ∈ allelesStep cfgB [] popCG ↔ cfgB.cv < popCG.pol_llstat) :=
  ⟨⟨by decide, by decide, by decide⟩,
    allele2_gate cfgB [] popCG (by decide) (by decide) (by decide)⟩

theorem division_guard_witness :
    ("A" ∈ alleles cfgB popsB) ∧ 1 ≤ ne_pops cfgB popsB :=
  ⟨by decide, division_guard cfgB popsB "A" (by decide)⟩

theorem maf_is_min_witness :
    (alleles cfgB popsB ≠ [])
    ∧ ∃ m, maf_total cfgB popsB = some m
      ∧ m ∈ (alleles cfgB popsB).map (mean_freq_a cfgB popsB)
      ∧ (∀ x ∈ (alleles cfgB popsB).map (mean_freq_a cfgB popsB), m ≤ x)
      ∧ (∀ a, alleles cfgB popsB = [a] → m = mean_freq_a cfgB popsB a) :=
  ⟨by decide, maf_is_min cfgB popsB (by decide)⟩

end FPA
